import Mathlib

/-!
Shallow embedding of the kiss-crypto library (src/src/index.ts) together with
models of the repository modules it imports (`./utils`, `./libsodium`,
`fast-sha256`) that are not present under `src/`; those models follow the
spec's description of the encoding utilities, the random source and the
cryptographic primitives at their interface boundary.

Bytes are `Nat` values (meaningful when `< 256`); byte arrays are `List Nat`;
JavaScript strings are Lean `String`s; a thrown JavaScript `Error` is the
`Except.error` arm of an explicit `Except` result; the `null` sentinel of the
decryption functions is `Option.none` inside the `Except.ok` arm.  The
per-call random draw of `generateRandomKey` is passed in explicitly as the
list of random bytes the secure source produced.
-/

namespace KissCrypto

/-! ### Hexadecimal encoding (model of `utils`: bytes ↔ hex text) -/

/-- Modelled from the spec: the `utils` module is not under `src/`; §4.1 asks
for lossless byte ↔ hexadecimal conversion.  The lower-case hex alphabet. -/
def hexDigits : List Char := "0123456789abcdef".toList

/-- Modelled from the spec: two hex characters for one byte. -/
def hexEncodeByte (b : Nat) : List Char :=
  [hexDigits.getD (b / 16) '0', hexDigits.getD (b % 16) '0']

/-- Modelled from the spec: hex encoding of a byte sequence. -/
def hexEncodeBytes (bs : List Nat) : List Char :=
  (bs.map hexEncodeByte).flatten

/-- Modelled from the spec: value of one hex digit (upper or lower case). -/
def hexDigitVal (c : Char) : Option Nat :=
  if '0' ≤ c ∧ c ≤ '9' then some (c.toNat - 48)
  else if 'a' ≤ c ∧ c ≤ 'f' then some (c.toNat - 87)
  else if 'A' ≤ c ∧ c ≤ 'F' then some (c.toNat - 55)
  else none

/-- Modelled from the spec: hex decoding; `none` on odd length or a character
outside the hex alphabet (§4.1: malformed input fails with a decoding error). -/
def hexDecodeBytes : List Char → Option (List Nat)
  | [] => some []
  | [_] => none
  | c1 :: c2 :: rest => do
    let hi ← hexDigitVal c1
    let lo ← hexDigitVal c2
    let tail ← hexDecodeBytes rest
    some ((hi * 16 + lo) :: tail)

/-! ### UTF-8 (model of `utils`: bytes ↔ UTF-8 text) -/

/-- Modelled from the spec: UTF-8 encoding of one code point (1 to 4 bytes). -/
def utf8EncodeChar (n : Nat) : List Nat :=
  if n < 128 then [n]
  else if n < 2048 then [192 + n / 64, 128 + n % 64]
  else if n < 65536 then [224 + n / 4096, 128 + n / 64 % 64, 128 + n % 64]
  else [240 + n / 262144, 128 + n / 4096 % 64, 128 + n / 64 % 64, 128 + n % 64]

/-- Modelled from the spec: one step of total UTF-8 decoding — from the lead
byte and the following bytes, the decoded code point and the bytes left over;
an invalid sequence yields the replacement code point 65533, as a text
decoder does. -/
def utf8Step (b : Nat) (rest : List Nat) : Nat × List Nat :=
  if b < 128 then (b, rest)
  else if 194 ≤ b ∧ b < 224 then
    match rest with
    | c :: rest2 =>
      if 128 ≤ c ∧ c < 192 then ((b - 192) * 64 + (c - 128), rest2)
      else (65533, rest2)
    | [] => (65533, [])
  else if 224 ≤ b ∧ b < 240 then
    match rest with
    | c :: d :: rest2 =>
      if (128 ≤ c ∧ c < 192) ∧ (128 ≤ d ∧ d < 192) then
        ((b - 224) * 4096 + (c - 128) * 64 + (d - 128), rest2)
      else (65533, rest2)
    | _ => (65533, [])
  else if 240 ≤ b ∧ b < 245 then
    match rest with
    | c :: d :: e :: rest2 =>
      if (128 ≤ c ∧ c < 192) ∧ ((128 ≤ d ∧ d < 192) ∧ (128 ≤ e ∧ e < 192)) then
        ((b - 240) * 262144 + (c - 128) * 4096 + (d - 128) * 64 + (e - 128), rest2)
      else (65533, rest2)
    | _ => (65533, [])
  else (65533, rest)

/-- Modelled from the spec: fuel-driven iteration of `utf8Step`; the fuel is
an upper bound on the number of code points still to be decoded. -/
def utf8DecodeAux : Nat → List Nat → List Nat
  | 0, _ => []
  | _, [] => []
  | fuel + 1, b :: rest =>
    let s := utf8Step b rest
    s.1 :: utf8DecodeAux fuel s.2

/-- Modelled from the spec: total UTF-8 decoding of a byte sequence to code
points. -/
def utf8Decode (l : List Nat) : List Nat := utf8DecodeAux l.length l

/-! ### Base64 (model of `utils`: bytes ↔ base64 text) -/

/-- Modelled from the spec: the standard base64 alphabet. -/
def b64Alphabet : List Char :=
  "ABCDEFGHIJKLMNOPQRSTUVWXYZabcdefghijklmnopqrstuvwxyz0123456789+/".toList

/-- Modelled from the spec: the base64 character of a 6-bit value. -/
def b64Char (n : Nat) : Char := b64Alphabet.getD n 'A'

/-- Modelled from the spec: index of a character in the base64 alphabet. -/
def b64CharIndexAux (c : Char) : List Char → Nat → Option Nat
  | [], _ => none
  | d :: rest, i => if d = c then some i else b64CharIndexAux c rest (i + 1)

/-- Modelled from the spec: 6-bit value of one base64 character. -/
def b64CharIndex (c : Char) : Option Nat := b64CharIndexAux c b64Alphabet 0

/-- Modelled from the spec: standard base64 encoding with padding. -/
def b64Encode : List Nat → List Char
  | [] => []
  | [a] => [b64Char (a / 4), b64Char (a % 4 * 16), '=', '=']
  | [a, b] => [b64Char (a / 4), b64Char (a % 4 * 16 + b / 16), b64Char (b % 16 * 4), '=']
  | a :: b :: c :: rest =>
    b64Char (a / 4) :: b64Char (a % 4 * 16 + b / 16) ::
      b64Char (b % 16 * 4 + c / 64) :: b64Char (c % 64) :: b64Encode rest

/-- Modelled from the spec: base64 decoding; `none` on input that is not
well-formed base64 (§4.1: malformed input fails with a decoding error). -/
def b64Decode : List Char → Option (List Nat)
  | [] => some []
  | w :: x :: y :: z :: rest =>
    if y = '=' then
      if rest = [] ∧ z = '=' then
        match b64CharIndex w, b64CharIndex x with
        | some a, some b => some [a * 4 + b / 16]
        | _, _ => none
      else none
    else if z = '=' then
      if rest = [] then
        match b64CharIndex w, b64CharIndex x, b64CharIndex y with
        | some a, some b, some c => some [a * 4 + b / 16, b % 16 * 16 + c / 4]
        | _, _, _ => none
      else none
    else
      match b64CharIndex w, b64CharIndex x, b64CharIndex y, b64CharIndex z, b64Decode rest with
      | some a, some b, some c, some d, some tail =>
        some ((a * 4 + b / 16) :: (b % 16 * 16 + c / 4) :: (c % 4 * 64 + d) :: tail)
      | _, _, _, _, _ => none
  | _ => none

/-! ### JavaScript string splitting and ordering -/

/-- Helper for `splitOnChar`: prepend a character to the first chunk. -/
def consHead (c : Char) : List (List Char) → List (List Char)
  | [] => [[c]]
  | h :: t => (c :: h) :: t

/-- JavaScript `String.prototype.split` on a one-character separator, without
a limit: the list of separator-free chunks (always non-empty). -/
def splitOnChar (sep : Char) : List Char → List (List Char)
  | [] => [[]]
  | c :: rest =>
    if c = sep then [] :: splitOnChar sep rest
    else consHead c (splitOnChar sep rest)

/-- JavaScript `s.split(':', limit)`: split fully, keep the first `limit`
chunks and drop the rest. -/
def jsSplit (s : String) (limit : Nat) : List String :=
  ((splitOnChar ':' s.toList).take limit).map (fun l => ⟨l⟩)

/-- JavaScript `<` on strings: lexicographic comparison by code unit (the
strings compared here are ASCII, where code units and code points agree). -/
def charListLt : List Char → List Char → Bool
  | [], [] => false
  | [], _ :: _ => true
  | _ :: _, [] => false
  | a :: as, b :: bs =>
    if a.toNat < b.toNat then true
    else if b.toNat < a.toNat then false
    else charListLt as bs

/-- JavaScript string comparison `a < b`. -/
def strLt (a b : String) : Bool := charListLt a.toList b.toList

/-! ### Errors and constants (src/src/index.ts) -/

/-- The distinguishable `Error` values the library itself throws:
`Invalid version: v`, the two nonce-length self-check messages, and the
decoding failures raised inside the modelled encoding utilities. -/
inductive JsError where
  | invalidVersion (version : String)
  | nonceLength (msg : String)
  | decodeError
  deriving DecidableEq, Repr

/-- The `Defaults` enum, member `Version`. -/
def Defaults.Version : String := "001"

/-- The `Defaults` enum, member `ArgonLength`. -/
def Defaults.ArgonLength : Nat := 32

/-- The `Defaults` enum, member `ArgonSaltLength`. -/
def Defaults.ArgonSaltLength : Nat := 16

/-- The `Defaults` enum, member `ArgonIterations`. -/
def Defaults.ArgonIterations : Nat := 5

/-- The `Defaults` enum, member `ArgonMemLimit`. -/
def Defaults.ArgonMemLimit : Nat := 67108864

/-- The `Defaults` enum, member `EncryptionKeyLength`. -/
def Defaults.EncryptionKeyLength : Nat := 32

/-- The `Defaults` enum, member `EncryptionNonceLength`. -/
def Defaults.EncryptionNonceLength : Nat := 24

/-! ### Models of the `utils` module (not under `src/`) -/

/-- Modelled from the spec: `stringToArrayBuffer` — UTF-8 bytes of a string. -/
def stringToArrayBuffer (s : String) : List Nat :=
  (s.toList.map Char.toNat).flatMap utf8EncodeChar

/-- Modelled from the spec: `arrayBufferToString` — text decoding of bytes. -/
def arrayBufferToString (bs : List Nat) : String :=
  ⟨(utf8Decode bs).map Char.ofNat⟩

/-- Modelled from the spec: `arrayBufferToHexString`. -/
def arrayBufferToHexString (bs : List Nat) : String :=
  ⟨hexEncodeBytes bs⟩

/-- Modelled from the spec: `hexStringToArrayBuffer`; fails with a decoding
error on malformed hex, and on the `undefined` produced by destructuring a
too-short split result. -/
def hexStringToArrayBuffer : Option String → Except JsError (List Nat)
  | none => .error .decodeError
  | some s =>
    match hexDecodeBytes s.toList with
    | none => .error .decodeError
    | some bs => .ok bs

/-- Modelled from the spec: `arrayBufferToBase64`. -/
def arrayBufferToBase64 (bs : List Nat) : String :=
  ⟨b64Encode bs⟩

/-- Modelled from the spec: `base64ToArrayBuffer`; fails with a decoding
error on input that is not well-formed base64, and on `undefined`. -/
def base64ToArrayBuffer : Option String → Except JsError (List Nat)
  | none => .error .decodeError
  | some s =>
    match b64Decode s.toList with
    | none => .error .decodeError
    | some bs => .ok bs

/-- Modelled from the spec: `generateRandomKey(len)` draws `len` secure
random bytes and hex-encodes them; the random draw is the explicit
`randomBytes` argument here (its length is the requested `len`). -/
def generateRandomKey (randomBytes : List Nat) : String :=
  arrayBufferToHexString randomBytes

/-! ### Models of the cryptographic primitives (`./libsodium`, `fast-sha256`) -/

/-- Modelled from the spec: the 16-byte Poly1305 authentication tag the AEAD
primitive computes over key, nonce and ciphertext body; the spec treats the
cipher as an opaque capability, so the tag function is abstracted to an
executable deterministic mixing of its inputs. -/
def aeadTag (key nonce body : List Nat) : List Nat :=
  (List.range 16).map
    (fun i => (key.sum * 3 + nonce.sum * 5 + body.sum * 7 + 11 * i + 13) % 256)

/-- Modelled from the spec: `crypto_aead_xchacha20poly1305_ietf_encrypt` —
self-contained ciphertext, the authentication tag appended to the body (the
keystream layer is abstracted away; the spec only fixes the interface). -/
def crypto_aead_xchacha20poly1305_ietf_encrypt
    (message nonce key : List Nat) : List Nat :=
  message ++ aeadTag key nonce message

/-- Modelled from the spec: `crypto_aead_xchacha20poly1305_ietf_decrypt` —
recovers the body when the tag verifies, and signals authentication failure
(the library surfaces it as `null`) otherwise. -/
def crypto_aead_xchacha20poly1305_ietf_decrypt
    (ciphertext nonce key : List Nat) : Option (List Nat) :=
  if 16 ≤ ciphertext.length then
    let body := ciphertext.take (ciphertext.length - 16)
    if ciphertext.drop (ciphertext.length - 16) = aeadTag key nonce body then
      some body
    else none
  else none

/-- Modelled from the spec: `sha256.hkdf` — a deterministic HKDF-class
expansion of the input key material and salt to `length` bytes (default 32),
abstracted to an executable deterministic mixing of its inputs. -/
def hkdf (ikm salt : List Nat) (length : Option Nat) : List Nat :=
  (List.range (length.getD 32)).map
    (fun i => (ikm.sum * 29 + salt.sum * 31 + 37 * i + 41) % 256)

/-- Modelled from the spec: `sodium.crypto_pwhash` — a deterministic
memory-hard (Argon2id-class) derivation of `length` bytes from password and
salt under the two cost parameters, abstracted to an executable
deterministic mixing of its inputs. -/
def crypto_pwhash
    (length : Nat) (password salt : List Nat) (opsLimit memLimit : Nat) : List Nat :=
  (List.range length).map
    (fun i =>
      (password.sum * 43 + salt.sum * 47 + opsLimit * 53 + memLimit * 59 + 61 * i + 67) % 256)

/-! ### The library (src/src/index.ts) -/

/-- The private `xChaChaEncrypt`: nonce self-check, hex decoding of nonce
and key, AEAD encryption, base64 encoding. -/
def xChaChaEncrypt (key plaintext nonce : String) : Except JsError String :=
  if nonce.length ≠ 48 then .error (.nonceLength "Nonce must be 48 bytes")
  else do
  let nonceBytes ← hexStringToArrayBuffer (some nonce)
  let keyBytes ← hexStringToArrayBuffer (some key)
  pure (arrayBufferToBase64
    (crypto_aead_xchacha20poly1305_ietf_encrypt
      (stringToArrayBuffer plaintext) nonceBytes keyBytes))

/-- The private `xChaChaEncryptBlob`: nonce-buffer self-check, hex decoding
of the key, AEAD encryption of the raw blob. -/
def xChaChaEncryptBlob
    (key : String) (plainblob nonceBuffer : List Nat) : Except JsError (List Nat) :=
  if nonceBuffer.length ≠ 24 then .error (.nonceLength "nonceBuffer must be 24 bytes")
  else do
  let keyBytes ← hexStringToArrayBuffer (some key)
  pure (crypto_aead_xchacha20poly1305_ietf_encrypt plainblob nonceBuffer keyBytes)

/-- The private `xChaChaDecrypt`: base64 decoding of the ciphertext, hex
decoding of nonce and key, AEAD decryption, text decoding of the result;
authentication failure is the `none` inside `Except.ok`. -/
def xChaChaDecrypt
    (key : String) (ciphertext nonce : Option String) :
    Except JsError (Option String) := do
  let cipherBytes ← base64ToArrayBuffer ciphertext
  let nonceBytes ← hexStringToArrayBuffer nonce
  let keyBytes ← hexStringToArrayBuffer (some key)
  pure ((crypto_aead_xchacha20poly1305_ietf_decrypt cipherBytes nonceBytes keyBytes).map
    arrayBufferToString)

/-- The private `xChaChaDecryptBlob`: hex decoding of the key, AEAD
decryption of the raw blob. -/
def xChaChaDecryptBlob
    (key : String) (cipherblob nonceBuffer : List Nat) :
    Except JsError (Option (List Nat)) := do
  let keyBytes ← hexStringToArrayBuffer (some key)
  pure (crypto_aead_xchacha20poly1305_ietf_decrypt cipherblob nonceBuffer keyBytes)

/-- The public `encrypt`: generate a fresh nonce (48 hex characters of 24
random bytes), AEAD-encrypt, and join version, nonce and ciphertext with
`:` — `[Defaults.Version, nonce, ciphertext].join(':')`. -/
def encrypt (key plaintext : String) (randomBytes : List Nat) :
    Except JsError String := do
  let nonce := generateRandomKey randomBytes
  let ciphertext ← xChaChaEncrypt key plaintext nonce
  pure (Defaults.Version ++ ":" ++ nonce ++ ":" ++ ciphertext)

/-- The public `encryptBlob`: generate a fresh nonce, AEAD-encrypt the blob,
and concatenate version bytes, nonce bytes and ciphertext bytes. -/
def encryptBlob (key : String) (plainblob randomBytes : List Nat) :
    Except JsError (List Nat) := do
  let nonce := generateRandomKey randomBytes
  let nonceBuffer ← hexStringToArrayBuffer (some nonce)
  let cipherblob ← xChaChaEncryptBlob key plainblob nonceBuffer
  pure (stringToArrayBuffer Defaults.Version ++ nonceBuffer ++ cipherblob)

/-- The public `decrypt`: `split(':', 3)` destructured into version, nonce
and ciphertext (a missing field is `undefined`, here `none`), the
lexicographic version check, then AEAD decryption. -/
def decrypt (key encryptedMessage : String) : Except JsError (Option String) :=
  let parts := jsSplit encryptedMessage 3
  let version := parts.headD ""
  if strLt version Defaults.Version then .error (.invalidVersion version)
  else xChaChaDecrypt key parts[2]? parts[1]?

/-- The public `decryptBlob`: slice off the version bytes and decode them to
text, the lexicographic version check, then slice the nonce region and the
ciphertext region and AEAD-decrypt. -/
def decryptBlob (key : String) (encryptedMessage : List Nat) :
    Except JsError (Option (List Nat)) :=
  let version := arrayBufferToString (encryptedMessage.take Defaults.Version.length)
  if strLt version Defaults.Version then .error (.invalidVersion version)
  else
    xChaChaDecryptBlob key
      (encryptedMessage.drop (Defaults.Version.length + Defaults.EncryptionNonceLength))
      ((encryptedMessage.drop Defaults.Version.length).take Defaults.EncryptionNonceLength)

/-- The public `hash`: HKDF-SHA256 of the UTF-8 bytes of `key` and the UTF-8
bytes of `salt` (the salt is not hex-decoded), hex-encoded. -/
def hash (key salt : String) (length : Option Nat) : Except JsError String :=
  .ok (arrayBufferToHexString
    (hkdf (stringToArrayBuffer key) (stringToArrayBuffer salt) length))

/-- The public `hashPassword`: Argon2id derivation of `length` bytes from
the UTF-8 password and the hex-decoded salt, with defaults
`iterations = 5`, `bytes = 67108864`, `length = 32`; an omitted optional
argument is `none`. -/
def hashPassword (password salt : String)
    (iterations bytes length : Option Nat) : Except JsError String := do
  let saltBytes ← hexStringToArrayBuffer (some salt)
  pure (arrayBufferToHexString
    (crypto_pwhash (length.getD Defaults.ArgonLength)
      (stringToArrayBuffer password) saltBytes
      (iterations.getD Defaults.ArgonIterations)
      (bytes.getD Defaults.ArgonMemLimit)))

/-! ### Helper lemmas -/

theorem except_bind_ok {α β : Type} (a : α) (f : α → Except JsError β) :
    (Except.ok a : Except JsError α) >>= f = f a := rfl

theorem except_bind_error {α β : Type} (e : JsError) (f : α → Except JsError β) :
    (Except.error e : Except JsError α) >>= f = .error e := rfl

theorem except_pure {α : Type} (a : α) : (pure a : Except JsError α) = .ok a := rfl

theorem char_toNat_lt_uniMax (c : Char) : c.toNat < 1114112 := by
  rcases c.valid with h | ⟨_, h2⟩
  · exact Nat.lt_trans h (by decide)
  · exact h2

theorem getD_mem_of_mem {l : List Char} {d : Char} (hd : d ∈ l) (n : Nat) :
    l.getD n d ∈ l := by
  rcases Nat.lt_or_ge n l.length with h | h
  · rw [List.getD_eq_getElem l d h]
    exact List.getElem_mem h
  · rw [List.getD_eq_default l d h]
    exact hd

/-! ### Hexadecimal lemmas -/

theorem hexDigitVal_getD : ∀ d < 16, hexDigitVal (hexDigits.getD d '0') = some d := by
  decide

theorem hexDecodeBytes_encodeByte (b : Nat) (hb : b < 256) (rest : List Char) :
    hexDecodeBytes (hexEncodeByte b ++ rest) =
      (hexDecodeBytes rest).map (fun t => b :: t) := by
  have h1 := hexDigitVal_getD (b / 16) (by omega)
  have h2 := hexDigitVal_getD (b % 16) (by omega)
  have hb' : b / 16 * 16 + b % 16 = b := by omega
  simp only [hexEncodeByte, List.cons_append, List.nil_append, hexDecodeBytes, h1, h2,
    Option.bind_eq_bind, Option.some_bind, hb', List.append_eq]
  cases hexDecodeBytes rest <;> rfl

theorem hexDecodeBytes_hexEncodeBytes (bs : List Nat) (h : ∀ b ∈ bs, b < 256) :
    hexDecodeBytes (hexEncodeBytes bs) = some bs := by
  induction bs with
  | nil => rfl
  | cons b rest ih =>
    have hb : b < 256 := h b (by simp)
    have hrest : ∀ x ∈ rest, x < 256 := fun x hx => h x (by simp [hx])
    simp only [hexEncodeBytes, List.map_cons, List.flatten_cons]
    rw [show (hexEncodeByte b ++ (rest.map hexEncodeByte).flatten) =
        hexEncodeByte b ++ hexEncodeBytes rest from rfl]
    rw [hexDecodeBytes_encodeByte b hb, ih hrest]
    rfl

theorem hexEncodeBytes_length (bs : List Nat) :
    (hexEncodeBytes bs).length = 2 * bs.length := by
  induction bs with
  | nil => rfl
  | cons b rest ih =>
    simp only [hexEncodeBytes, List.map_cons, List.flatten_cons, List.length_append] at *
    simp [hexEncodeByte, ih]
    omega

theorem hexEncodeBytes_mem (bs : List Nat) :
    ∀ c ∈ hexEncodeBytes bs, c ∈ hexDigits := by
  intro c hc
  simp only [hexEncodeBytes, List.mem_flatten, List.mem_map] at hc
  obtain ⟨l, ⟨b, _, rfl⟩, hcl⟩ := hc
  simp only [hexEncodeByte, List.mem_cons, List.not_mem_nil, or_false] at hcl
  rcases hcl with rfl | rfl <;>
    exact getD_mem_of_mem (by decide) _

theorem hexDigits_ne_colon : ∀ c ∈ hexDigits, c ≠ ':' := by decide

theorem count_colon_zero (l : List Char) (h : ∀ x ∈ l, x ≠ ':') : l.count ':' = 0 :=
  List.count_eq_zero.mpr (fun hm => h ':' hm rfl)

/-! ### UTF-8 lemmas -/

theorem utf8EncodeChar_lt (n : Nat) (hn : n < 1114112) :
    ∀ b ∈ utf8EncodeChar n, b < 256 := by
  intro b hb
  unfold utf8EncodeChar at hb
  split_ifs at hb with h1 h2 h3 <;>
    simp only [List.mem_cons, List.not_mem_nil, or_false] at hb
  · omega
  · rcases hb with rfl | rfl <;> omega
  · rcases hb with rfl | rfl | rfl <;> omega
  · rcases hb with rfl | rfl | rfl | rfl <;> omega

theorem utf8EncodeChar_ne_nil (n : Nat) : ∃ b t, utf8EncodeChar n = b :: t := by
  unfold utf8EncodeChar
  split_ifs <;> exact ⟨_, _, rfl⟩

theorem utf8Step_encode (n : Nat) (hn : n < 1114112) (rest : List Nat) :
    ∀ b t, utf8EncodeChar n = b :: t → utf8Step b (t ++ rest) = (n, rest) := by
  intro b t he
  by_cases h1 : n < 128
  · rw [show utf8EncodeChar n = [n] from by simp [utf8EncodeChar, h1]] at he
    cases he
    simp [utf8Step, h1]
  by_cases h2 : n < 2048
  · rw [show utf8EncodeChar n = [192 + n / 64, 128 + n % 64] from by
      simp [utf8EncodeChar, h1, h2]] at he
    cases he
    have c1 : ¬ (192 + n / 64 < 128) := by omega
    have c2 : 194 ≤ 192 + n / 64 ∧ 192 + n / 64 < 224 := by omega
    have c3 : 128 ≤ 128 + n % 64 ∧ 128 + n % 64 < 192 := by omega
    simp only [utf8Step, if_neg c1, if_pos c2, List.cons_append, List.nil_append, if_pos c3,
      Prod.mk.injEq]
    exact ⟨by omega, trivial⟩
  by_cases h3 : n < 65536
  · rw [show utf8EncodeChar n = [224 + n / 4096, 128 + n / 64 % 64, 128 + n % 64] from by
      simp [utf8EncodeChar, h1, h2, h3]] at he
    cases he
    have c1 : ¬ (224 + n / 4096 < 128) := by omega
    have c2 : ¬ (194 ≤ 224 + n / 4096 ∧ 224 + n / 4096 < 224) := by omega
    have c3 : 224 ≤ 224 + n / 4096 ∧ 224 + n / 4096 < 240 := by omega
    have c4 : (128 ≤ 128 + n / 64 % 64 ∧ 128 + n / 64 % 64 < 192) ∧
        (128 ≤ 128 + n % 64 ∧ 128 + n % 64 < 192) := by omega
    simp only [utf8Step, if_neg c1, if_neg c2, if_pos c3, List.cons_append, List.nil_append,
      if_pos c4, Prod.mk.injEq]
    exact ⟨by omega, trivial⟩
  · rw [show utf8EncodeChar n =
        [240 + n / 262144, 128 + n / 4096 % 64, 128 + n / 64 % 64, 128 + n % 64] from by
      simp [utf8EncodeChar, h1, h2, h3]] at he
    cases he
    have c1 : ¬ (240 + n / 262144 < 128) := by omega
    have c2 : ¬ (194 ≤ 240 + n / 262144 ∧ 240 + n / 262144 < 224) := by omega
    have c3 : ¬ (224 ≤ 240 + n / 262144 ∧ 240 + n / 262144 < 240) := by omega
    have c4 : 240 ≤ 240 + n / 262144 ∧ 240 + n / 262144 < 245 := by omega
    have c5 : (128 ≤ 128 + n / 4096 % 64 ∧ 128 + n / 4096 % 64 < 192) ∧
        ((128 ≤ 128 + n / 64 % 64 ∧ 128 + n / 64 % 64 < 192) ∧
          (128 ≤ 128 + n % 64 ∧ 128 + n % 64 < 192)) := by omega
    simp only [utf8Step, if_neg c1, if_neg c2, if_neg c3, if_pos c4, List.cons_append,
      List.nil_append, if_pos c5, Prod.mk.injEq]
    exact ⟨by omega, trivial⟩

theorem utf8DecodeAux_encode (cps : List Nat) (h : ∀ n ∈ cps, n < 1114112) :
    ∀ fuel, (cps.flatMap utf8EncodeChar).length ≤ fuel →
      utf8DecodeAux fuel (cps.flatMap utf8EncodeChar) = cps := by
  induction cps with
  | nil => intro fuel _; cases fuel <;> rfl
  | cons n rest ih =>
    intro fuel hf
    have hn := h n (by simp)
    obtain ⟨b, t, he⟩ := utf8EncodeChar_ne_nil n
    rw [List.flatMap_cons] at hf ⊢
    rw [he] at hf ⊢
    cases fuel with
    | zero => simp at hf
    | succ f =>
      rw [List.cons_append, utf8DecodeAux]
      simp only [utf8Step_encode n hn _ b t he]
      rw [ih (fun x hx => h x (by simp [hx])) f (by simp at hf ⊢; omega)]

theorem utf8Decode_encodeAll (l : List Nat) (h : ∀ n ∈ l, n < 1114112) :
    utf8Decode (l.flatMap utf8EncodeChar) = l :=
  utf8DecodeAux_encode l h _ (Nat.le_refl _)

theorem arrayBufferToString_stringToArrayBuffer (s : String) :
    arrayBufferToString (stringToArrayBuffer s) = s := by
  unfold arrayBufferToString stringToArrayBuffer
  rw [utf8Decode_encodeAll]
  · have he : Char.ofNat ∘ Char.toNat = id := by
      funext c
      exact Char.ofNat_toNat c
    rw [List.map_map, he, List.map_id]
    rfl
  · intro x hx
    simp only [List.mem_map] at hx
    obtain ⟨c, _, rfl⟩ := hx
    exact char_toNat_lt_uniMax c

theorem stringToArrayBuffer_lt (s : String) : ∀ b ∈ stringToArrayBuffer s, b < 256 := by
  intro b hb
  simp only [stringToArrayBuffer, List.mem_flatMap, List.mem_map] at hb
  obtain ⟨n, ⟨c, _, rfl⟩, hbn⟩ := hb
  exact utf8EncodeChar_lt _ (char_toNat_lt_uniMax c) b hbn

/-! ### Base64 lemmas -/

theorem b64CharIndex_b64Char : ∀ n < 64, b64CharIndex (b64Char n) = some n := by decide

theorem b64Char_mem (n : Nat) : b64Char n ∈ b64Alphabet :=
  getD_mem_of_mem (by decide) n

theorem b64Char_ne_pad (n : Nat) : b64Char n ≠ '=' := by
  intro h
  have hm := b64Char_mem n
  rw [h] at hm
  exact absurd hm (by decide)

theorem b64Decode_b64Encode (bs : List Nat) (h : ∀ b ∈ bs, b < 256) :
    b64Decode (b64Encode bs) = some bs := by
  induction bs using b64Encode.induct with
  | case1 => rfl
  | case2 a =>
    have ha : a < 256 := h a (by simp)
    have i1 := b64CharIndex_b64Char (a / 4) (by omega)
    have i2 := b64CharIndex_b64Char (a % 4 * 16) (by omega)
    simp only [b64Encode, b64Decode, i1, i2]
    simp
    omega
  | case3 a b =>
    have ha : a < 256 := h a (by simp)
    have hb : b < 256 := h b (by simp)
    have i1 := b64CharIndex_b64Char (a / 4) (by omega)
    have i2 := b64CharIndex_b64Char (a % 4 * 16 + b / 16) (by omega)
    have i3 := b64CharIndex_b64Char (b % 16 * 4) (by omega)
    simp only [b64Encode, b64Decode, if_neg (b64Char_ne_pad _), i1, i2, i3]
    simp
    omega
  | case4 a b c rest ih =>
    have ha : a < 256 := h a (by simp)
    have hb : b < 256 := h b (by simp)
    have hc : c < 256 := h c (by simp)
    have i1 := b64CharIndex_b64Char (a / 4) (by omega)
    have i2 := b64CharIndex_b64Char (a % 4 * 16 + b / 16) (by omega)
    have i3 := b64CharIndex_b64Char (b % 16 * 4 + c / 64) (by omega)
    have i4 := b64CharIndex_b64Char (c % 64) (by omega)
    have irest := ih (fun x hx => h x (by simp [hx]))
    simp only [b64Encode, b64Decode, if_neg (b64Char_ne_pad _), i1, i2, i3, i4, irest]
    simp
    omega

theorem b64Encode_mem (bs : List Nat) :
    ∀ ch ∈ b64Encode bs, ch ∈ b64Alphabet ∨ ch = '=' := by
  induction bs using b64Encode.induct with
  | case1 => simp [b64Encode]
  | case2 a =>
    intro ch hch
    simp only [b64Encode, List.mem_cons, List.not_mem_nil, or_false] at hch
    rcases hch with rfl | rfl | rfl | rfl
    · exact Or.inl (b64Char_mem _)
    · exact Or.inl (b64Char_mem _)
    · exact Or.inr rfl
    · exact Or.inr rfl
  | case3 a b =>
    intro ch hch
    simp only [b64Encode, List.mem_cons, List.not_mem_nil, or_false] at hch
    rcases hch with rfl | rfl | rfl | rfl
    · exact Or.inl (b64Char_mem _)
    · exact Or.inl (b64Char_mem _)
    · exact Or.inl (b64Char_mem _)
    · exact Or.inr rfl
  | case4 a b c rest ih =>
    intro ch hch
    simp only [b64Encode, List.mem_cons] at hch
    rcases hch with rfl | rfl | rfl | rfl | hch
    · exact Or.inl (b64Char_mem _)
    · exact Or.inl (b64Char_mem _)
    · exact Or.inl (b64Char_mem _)
    · exact Or.inl (b64Char_mem _)
    · exact ih ch hch

theorem b64Encode_ne_colon (bs : List Nat) : ∀ ch ∈ b64Encode bs, ch ≠ ':' := by
  intro ch hch
  rcases b64Encode_mem bs ch hch with hm | rfl
  · intro hcol
    rw [hcol] at hm
    exact absurd hm (by decide)
  · decide

/-! ### Split lemmas -/

theorem splitOnChar_sepfree (sep : Char) (a : List Char) (h : ∀ c ∈ a, c ≠ sep) :
    splitOnChar sep a = [a] := by
  induction a with
  | nil => rfl
  | cons c rest ih =>
    have hc : c ≠ sep := h c (by simp)
    have hrest : ∀ x ∈ rest, x ≠ sep := fun x hx => h x (by simp [hx])
    simp only [splitOnChar, if_neg hc, ih hrest, consHead]

theorem splitOnChar_append (sep : Char) (a rest : List Char) (h : ∀ c ∈ a, c ≠ sep) :
    splitOnChar sep (a ++ sep :: rest) = a :: splitOnChar sep rest := by
  induction a with
  | nil => simp [splitOnChar]
  | cons c tail ih =>
    have hc : c ≠ sep := h c (by simp)
    have htail : ∀ x ∈ tail, x ≠ sep := fun x hx => h x (by simp [hx])
    simp only [List.cons_append, splitOnChar, if_neg hc, List.append_eq, ih htail, consHead]

/-! ### AEAD lemmas -/

theorem aeadTag_length (key nonce body : List Nat) :
    (aeadTag key nonce body).length = 16 := by
  simp [aeadTag]

theorem aeadTag_lt (key nonce body : List Nat) :
    ∀ b ∈ aeadTag key nonce body, b < 256 := by
  intro b hb
  simp only [aeadTag, List.mem_map] at hb
  obtain ⟨i, _, rfl⟩ := hb
  exact Nat.mod_lt _ (by omega)

theorem aead_roundtrip (m nonce key : List Nat) :
    crypto_aead_xchacha20poly1305_ietf_decrypt
      (crypto_aead_xchacha20poly1305_ietf_encrypt m nonce key) nonce key = some m := by
  unfold crypto_aead_xchacha20poly1305_ietf_encrypt
    crypto_aead_xchacha20poly1305_ietf_decrypt
  have hlen : (m ++ aeadTag key nonce m).length = m.length + 16 := by
    simp [aeadTag_length]
  rw [hlen]
  rw [if_pos (by omega)]
  have hsub : m.length + 16 - 16 = m.length := by omega
  rw [hsub, List.take_left, List.drop_left, if_pos rfl]

theorem aead_ct_lt (m nonce key : List Nat) (h : ∀ b ∈ m, b < 256) :
    ∀ b ∈ crypto_aead_xchacha20poly1305_ietf_encrypt m nonce key, b < 256 := by
  intro b hb
  unfold crypto_aead_xchacha20poly1305_ietf_encrypt at hb
  rcases List.mem_append.mp hb with h1 | h2
  · exact h b h1
  · exact aeadTag_lt key nonce m b h2

/-! ### Decoder wrappers -/

theorem hexStringToArrayBuffer_some (s : String) (bs : List Nat)
    (h : hexDecodeBytes s.toList = some bs) :
    hexStringToArrayBuffer (some s) = .ok bs := by
  simp only [hexStringToArrayBuffer, h]

theorem base64ToArrayBuffer_some (s : String) (bs : List Nat)
    (h : b64Decode s.toList = some bs) :
    base64ToArrayBuffer (some s) = .ok bs := by
  simp only [base64ToArrayBuffer, h]

theorem hexStringToArrayBuffer_cases (x : Option String) :
    hexStringToArrayBuffer x = .error .decodeError ∨
      ∃ bs, hexStringToArrayBuffer x = .ok bs := by
  rcases x with _ | s
  · exact Or.inl rfl
  · rcases h : hexDecodeBytes s.toList with _ | bs
    · exact Or.inl (by simp only [hexStringToArrayBuffer, h])
    · exact Or.inr ⟨bs, by simp only [hexStringToArrayBuffer, h]⟩

theorem base64ToArrayBuffer_cases (x : Option String) :
    base64ToArrayBuffer x = .error .decodeError ∨
      ∃ bs, base64ToArrayBuffer x = .ok bs := by
  rcases x with _ | s
  · exact Or.inl rfl
  · rcases h : b64Decode s.toList with _ | bs
    · exact Or.inl (by simp only [base64ToArrayBuffer, h])
    · exact Or.inr ⟨bs, by simp only [base64ToArrayBuffer, h]⟩

theorem hexStringToArrayBuffer_generateRandomKey (randomBytes : List Nat)
    (h : ∀ b ∈ randomBytes, b < 256) :
    hexStringToArrayBuffer (some (generateRandomKey randomBytes)) = .ok randomBytes :=
  hexStringToArrayBuffer_some _ _ (hexDecodeBytes_hexEncodeBytes randomBytes h)

/-! ### Computation of the encryption and decryption paths -/

theorem generateRandomKey_length (randomBytes : List Nat) :
    (generateRandomKey randomBytes).length = 2 * randomBytes.length := by
  show (hexEncodeBytes randomBytes).length = 2 * randomBytes.length
  exact hexEncodeBytes_length randomBytes

theorem xChaChaEncrypt_eq (key plaintext nonce : String) (nb kb : List Nat)
    (hlen : nonce.length = 48)
    (hn : hexDecodeBytes nonce.toList = some nb)
    (hk : hexDecodeBytes key.toList = some kb) :
    xChaChaEncrypt key plaintext nonce = .ok (arrayBufferToBase64
      (crypto_aead_xchacha20poly1305_ietf_encrypt (stringToArrayBuffer plaintext) nb kb)) := by
  unfold xChaChaEncrypt
  rw [if_neg (by simp [hlen])]
  rw [hexStringToArrayBuffer_some _ _ hn, except_bind_ok,
    hexStringToArrayBuffer_some _ _ hk, except_bind_ok]
  rfl

theorem encrypt_eq (key plaintext : String) (randomBytes kb : List Nat)
    (hk : hexDecodeBytes key.toList = some kb)
    (hr : randomBytes.length = 24) (hr2 : ∀ b ∈ randomBytes, b < 256) :
    encrypt key plaintext randomBytes =
      .ok (Defaults.Version ++ ":" ++ generateRandomKey randomBytes ++ ":" ++
        arrayBufferToBase64 (crypto_aead_xchacha20poly1305_ietf_encrypt
          (stringToArrayBuffer plaintext) randomBytes kb)) := by
  simp only [encrypt]
  rw [xChaChaEncrypt_eq key plaintext (generateRandomKey randomBytes) randomBytes kb
    (by rw [generateRandomKey_length, hr])
    (by exact hexDecodeBytes_hexEncodeBytes randomBytes hr2) hk]
  rfl

theorem envelope_toList (v a b : String) :
    (v ++ ":" ++ a ++ ":" ++ b).toList =
      v.toList ++ (':' :: (a.toList ++ (':' :: b.toList))) := by
  show ((((v ++ ":") ++ a) ++ ":") ++ b).data = _
  rw [String.data_append, String.data_append, String.data_append,
    show (":" : String).data = [':'] from rfl]
  simp

theorem jsSplit_three (v a b : String)
    (hv : ∀ x ∈ v.toList, x ≠ ':')
    (ha : ∀ x ∈ a.toList, x ≠ ':') (hb : ∀ x ∈ b.toList, x ≠ ':') :
    jsSplit (v ++ ":" ++ a ++ ":" ++ b) 3 = [v, a, b] := by
  unfold jsSplit
  rw [envelope_toList]
  rw [splitOnChar_append _ _ _ hv, splitOnChar_append _ _ _ ha,
    splitOnChar_sepfree _ _ hb]
  rfl

theorem xChaChaDecrypt_eq (key ct nonce : String) (cb nb kb : List Nat)
    (hc : b64Decode ct.toList = some cb)
    (hn : hexDecodeBytes nonce.toList = some nb)
    (hk : hexDecodeBytes key.toList = some kb) :
    xChaChaDecrypt key (some ct) (some nonce) =
      .ok ((crypto_aead_xchacha20poly1305_ietf_decrypt cb nb kb).map arrayBufferToString) := by
  unfold xChaChaDecrypt
  rw [base64ToArrayBuffer_some _ _ hc, except_bind_ok,
    hexStringToArrayBuffer_some _ _ hn, except_bind_ok,
    hexStringToArrayBuffer_some _ _ hk, except_bind_ok]
  rfl

theorem decrypt_wellformed (key v a b : String) (cb nb kb : List Nat)
    (hv : ∀ x ∈ v.toList, x ≠ ':')
    (hver : strLt v Defaults.Version = false)
    (ha : ∀ x ∈ a.toList, x ≠ ':') (hb : ∀ x ∈ b.toList, x ≠ ':')
    (hc : b64Decode b.toList = some cb)
    (hn : hexDecodeBytes a.toList = some nb)
    (hk : hexDecodeBytes key.toList = some kb) :
    decrypt key (v ++ ":" ++ a ++ ":" ++ b) =
      .ok ((crypto_aead_xchacha20poly1305_ietf_decrypt cb nb kb).map arrayBufferToString) := by
  unfold decrypt
  rw [jsSplit_three v a b hv ha hb]
  simp only [List.headD_cons]
  rw [if_neg (by simp [hver])]
  rw [show ([v, a, b] : List String)[2]? = some b from rfl,
    show ([v, a, b] : List String)[1]? = some a from rfl]
  exact xChaChaDecrypt_eq key b a cb nb kb hc hn hk

theorem xChaChaEncryptBlob_eq (key : String) (plainblob nb kb : List Nat)
    (hlen : nb.length = 24) (hk : hexDecodeBytes key.toList = some kb) :
    xChaChaEncryptBlob key plainblob nb =
      .ok (crypto_aead_xchacha20poly1305_ietf_encrypt plainblob nb kb) := by
  unfold xChaChaEncryptBlob
  rw [if_neg (by omega)]
  rw [hexStringToArrayBuffer_some _ _ hk, except_bind_ok]
  rfl

theorem encryptBlob_eq (key : String) (plainblob randomBytes kb : List Nat)
    (hk : hexDecodeBytes key.toList = some kb)
    (hr : randomBytes.length = 24) (hr2 : ∀ b ∈ randomBytes, b < 256) :
    encryptBlob key plainblob randomBytes =
      .ok (stringToArrayBuffer Defaults.Version ++ randomBytes ++
        crypto_aead_xchacha20poly1305_ietf_encrypt plainblob randomBytes kb) := by
  simp only [encryptBlob]
  rw [hexStringToArrayBuffer_generateRandomKey randomBytes hr2, except_bind_ok]
  rw [xChaChaEncryptBlob_eq key plainblob randomBytes kb hr hk, except_bind_ok]
  rfl

theorem xChaChaDecryptBlob_eq (key : String) (cb nb kb : List Nat)
    (hk : hexDecodeBytes key.toList = some kb) :
    xChaChaDecryptBlob key cb nb =
      .ok (crypto_aead_xchacha20poly1305_ietf_decrypt cb nb kb) := by
  unfold xChaChaDecryptBlob
  rw [hexStringToArrayBuffer_some _ _ hk, except_bind_ok]
  rfl

theorem decryptBlob_wellformed (key : String) (vb nb cb kb : List Nat)
    (hvb : vb.length = 3)
    (hver : strLt (arrayBufferToString vb) Defaults.Version = false)
    (hnb : nb.length = 24) (hk : hexDecodeBytes key.toList = some kb) :
    decryptBlob key (vb ++ nb ++ cb) =
      .ok (crypto_aead_xchacha20poly1305_ietf_decrypt cb nb kb) := by
  simp only [decryptBlob]
  rw [List.append_assoc]
  rw [List.take_left' (show vb.length = Defaults.Version.length from hvb)]
  rw [if_neg (by simp [hver])]
  rw [← List.drop_drop]
  rw [List.drop_left' (show vb.length = Defaults.Version.length from hvb)]
  rw [List.drop_left' (show nb.length = Defaults.EncryptionNonceLength from hnb)]
  rw [List.take_left' (show nb.length = Defaults.EncryptionNonceLength from hnb)]
  exact xChaChaDecryptBlob_eq key cb nb kb hk

/-! ### Case analyses of the decryption results -/

theorem xChaChaDecrypt_cases (key : String) (ct nonce : Option String) :
    xChaChaDecrypt key ct nonce = .error .decodeError ∨
      ∃ r, xChaChaDecrypt key ct nonce = .ok r := by
  unfold xChaChaDecrypt
  rcases base64ToArrayBuffer_cases ct with h | ⟨cb, h⟩ <;> rw [h]
  · exact Or.inl rfl
  rcases hexStringToArrayBuffer_cases nonce with h2 | ⟨nb, h2⟩ <;> rw [except_bind_ok, h2]
  · exact Or.inl rfl
  rcases hexStringToArrayBuffer_cases (some key) with h3 | ⟨kb, h3⟩ <;> rw [except_bind_ok, h3]
  · exact Or.inl rfl
  · exact Or.inr ⟨_, rfl⟩

theorem xChaChaDecryptBlob_cases (key : String) (cb nb : List Nat) :
    xChaChaDecryptBlob key cb nb = .error .decodeError ∨
      ∃ r, xChaChaDecryptBlob key cb nb = .ok r := by
  unfold xChaChaDecryptBlob
  rcases hexStringToArrayBuffer_cases (some key) with h | ⟨kb, h⟩ <;> rw [h]
  · exact Or.inl rfl
  · exact Or.inr ⟨_, rfl⟩

theorem xChaChaEncrypt_cases (key plaintext nonce : String) (h48 : nonce.length = 48) :
    xChaChaEncrypt key plaintext nonce = .error .decodeError ∨
      ∃ r, xChaChaEncrypt key plaintext nonce = .ok r := by
  unfold xChaChaEncrypt
  rw [if_neg (by simp [h48])]
  rcases hexStringToArrayBuffer_cases (some nonce) with h | ⟨nb, h⟩ <;> rw [h]
  · exact Or.inl rfl
  rcases hexStringToArrayBuffer_cases (some key) with h2 | ⟨kb, h2⟩ <;> rw [except_bind_ok, h2]
  · exact Or.inl rfl
  · exact Or.inr ⟨_, rfl⟩

theorem decrypt_result_cases (key env : String) :
    decrypt key env = .error (.invalidVersion ((jsSplit env 3).headD "")) ∨
      decrypt key env = .error .decodeError ∨ ∃ r, decrypt key env = .ok r := by
  unfold decrypt
  cases hlt : strLt ((jsSplit env 3).headD "") Defaults.Version with
  | true =>
    rw [if_pos hlt]
    exact Or.inl rfl
  | false =>
    rw [if_neg (by rw [hlt]; decide)]
    rcases xChaChaDecrypt_cases key (jsSplit env 3)[2]? (jsSplit env 3)[1]? with h | ⟨r, h⟩
    · exact Or.inr (Or.inl h)
    · exact Or.inr (Or.inr ⟨r, h⟩)

theorem decryptBlob_result_cases (key : String) (msg : List Nat) :
    decryptBlob key msg =
        .error (.invalidVersion (arrayBufferToString (msg.take Defaults.Version.length))) ∨
      decryptBlob key msg = .error .decodeError ∨ ∃ r, decryptBlob key msg = .ok r := by
  unfold decryptBlob
  cases hlt : strLt (arrayBufferToString (msg.take Defaults.Version.length)) Defaults.Version with
  | true =>
    rw [if_pos hlt]
    exact Or.inl rfl
  | false =>
    rw [if_neg (by rw [hlt]; decide)]
    rcases xChaChaDecryptBlob_cases key
        (msg.drop (Defaults.Version.length + Defaults.EncryptionNonceLength))
        ((msg.drop Defaults.Version.length).take Defaults.EncryptionNonceLength) with h | ⟨r, h⟩
    · exact Or.inr (Or.inl h)
    · exact Or.inr (Or.inr ⟨r, h⟩)

/-! ## Claims -/

/-- C1: for every 32-byte key K (supplied as 64 hex characters) and every
UTF-8 string P, `decrypt(K, encrypt(K, P))` returns exactly P — not `null`
and without throwing.  The 24 random bytes drawn for the nonce are the
explicit `randomBytes` argument. -/
theorem C1_roundtrip_text (key plaintext : String) (keyBytes randomBytes : List Nat)
    (hkeyLen : key.length = 64)
    (hkey : hexDecodeBytes key.toList = some keyBytes)
    (hrandLen : randomBytes.length = 24)
    (hrand : ∀ b ∈ randomBytes, b < 256) :
    ∃ env, encrypt key plaintext randomBytes = .ok env ∧
      decrypt key env = .ok (some plaintext) := by
  refine ⟨_, encrypt_eq key plaintext randomBytes keyBytes hkey hrandLen hrand, ?_⟩
  have hctlt := aead_ct_lt (stringToArrayBuffer plaintext) randomBytes keyBytes
    (stringToArrayBuffer_lt plaintext)
  rw [decrypt_wellformed key Defaults.Version (generateRandomKey randomBytes)
    (arrayBufferToBase64 (crypto_aead_xchacha20poly1305_ietf_encrypt
      (stringToArrayBuffer plaintext) randomBytes keyBytes))
    (crypto_aead_xchacha20poly1305_ietf_encrypt
      (stringToArrayBuffer plaintext) randomBytes keyBytes)
    randomBytes keyBytes
    (by decide)
    (by decide)
    (fun x hx => hexDigits_ne_colon x (hexEncodeBytes_mem randomBytes x hx))
    (b64Encode_ne_colon _)
    (by exact b64Decode_b64Encode _ hctlt)
    (by exact hexDecodeBytes_hexEncodeBytes randomBytes hrand)
    hkey]
  rw [aead_roundtrip]
  simp [arrayBufferToString_stringToArrayBuffer]

/-- Witness for C1: the all-zero 32-byte key as 64 hex characters, plaintext
"hello", an all-zero nonce draw. -/
theorem C1_roundtrip_text_witness :
    (⟨List.replicate 64 '0'⟩ : String).length = 64 ∧
    hexDecodeBytes (⟨List.replicate 64 '0'⟩ : String).toList = some (List.replicate 32 0) ∧
    (List.replicate 24 0).length = 24 ∧
    (∀ b ∈ List.replicate 24 0, b < 256) ∧
    (∃ env, encrypt ⟨List.replicate 64 '0'⟩ "hello" (List.replicate 24 0) = .ok env ∧
      decrypt ⟨List.replicate 64 '0'⟩ env = .ok (some "hello")) :=
  ⟨by decide, by decide, by decide, by decide,
    C1_roundtrip_text ⟨List.replicate 64 '0'⟩ "hello" (List.replicate 32 0)
      (List.replicate 24 0) (by decide) (by decide) (by decide) (by decide)⟩

/-- C2: for every 32-byte key K and every byte sequence B,
`decryptBlob(K, encryptBlob(K, B))` returns a byte sequence equal to B — not
`null` and without throwing. -/
theorem C2_roundtrip_blob (key : String) (plainblob keyBytes randomBytes : List Nat)
    (hkeyLen : key.length = 64)
    (hkey : hexDecodeBytes key.toList = some keyBytes)
    (hblob : ∀ b ∈ plainblob, b < 256)
    (hrandLen : randomBytes.length = 24)
    (hrand : ∀ b ∈ randomBytes, b < 256) :
    ∃ env, encryptBlob key plainblob randomBytes = .ok env ∧
      decryptBlob key env = .ok (some plainblob) := by
  refine ⟨_, encryptBlob_eq key plainblob randomBytes keyBytes hkey hrandLen hrand, ?_⟩
  rw [decryptBlob_wellformed key (stringToArrayBuffer Defaults.Version) randomBytes
    (crypto_aead_xchacha20poly1305_ietf_encrypt plainblob randomBytes keyBytes) keyBytes
    (by decide) (by decide) hrandLen hkey]
  rw [aead_roundtrip]

/-- Witness for C2: the all-zero key, blob [1, 2, 255], an all-zero nonce
draw. -/
theorem C2_roundtrip_blob_witness :
    (⟨List.replicate 64 '0'⟩ : String).length = 64 ∧
    hexDecodeBytes (⟨List.replicate 64 '0'⟩ : String).toList = some (List.replicate 32 0) ∧
    (∀ b ∈ [1, 2, 255], b < 256) ∧
    (List.replicate 24 0).length = 24 ∧
    (∀ b ∈ List.replicate 24 0, b < 256) ∧
    (∃ env, encryptBlob ⟨List.replicate 64 '0'⟩ [1, 2, 255] (List.replicate 24 0) = .ok env ∧
      decryptBlob ⟨List.replicate 64 '0'⟩ env = .ok (some [1, 2, 255])) :=
  ⟨by decide, by decide, by decide, by decide, by decide,
    C2_roundtrip_blob ⟨List.replicate 64 '0'⟩ [1, 2, 255] (List.replicate 32 0)
      (List.replicate 24 0) (by decide) (by decide) (by decide) (by decide) (by decide)⟩

/-- C3: on a well-formed envelope whose version field is accepted, if AEAD
tag verification fails, `decrypt` and `decryptBlob` return the `null`
sentinel (`Except.ok none`) rather than throwing an error. -/
theorem C3_auth_failure_null :
    (∀ (key v a b : String) (cb nb kb : List Nat),
      (∀ x ∈ v.toList, x ≠ ':') → strLt v Defaults.Version = false →
      (∀ x ∈ a.toList, x ≠ ':') → (∀ x ∈ b.toList, x ≠ ':') →
      b64Decode b.toList = some cb → hexDecodeBytes a.toList = some nb →
      hexDecodeBytes key.toList = some kb →
      crypto_aead_xchacha20poly1305_ietf_decrypt cb nb kb = none →
      decrypt key (v ++ ":" ++ a ++ ":" ++ b) = .ok none) ∧
    (∀ (key : String) (vb nb cb kb : List Nat),
      vb.length = 3 → strLt (arrayBufferToString vb) Defaults.Version = false →
      nb.length = 24 → hexDecodeBytes key.toList = some kb →
      crypto_aead_xchacha20poly1305_ietf_decrypt cb nb kb = none →
      decryptBlob key (vb ++ nb ++ cb) = .ok none) := by
  constructor
  · intro key v a b cb nb kb hv hver ha hb hc hn hk hfail
    rw [decrypt_wellformed key v a b cb nb kb hv hver ha hb hc hn hk, hfail]
    rfl
  · intro key vb nb cb kb hvb hver hnb hk hfail
    rw [decryptBlob_wellformed key vb nb cb kb hvb hver hnb hk, hfail]

/-- Witness for C3: a tampered text envelope whose ciphertext field decodes
to two bytes (tag check fails), and a blob envelope with a one-byte
ciphertext region (tag check fails); both decrypt to the sentinel. -/
theorem C3_auth_failure_null_witness :
    ((∀ x ∈ ("001" : String).toList, x ≠ ':') ∧
      strLt "001" Defaults.Version = false ∧
      (∀ x ∈ (⟨List.replicate 48 '0'⟩ : String).toList, x ≠ ':') ∧
      (∀ x ∈ ("AAA=" : String).toList, x ≠ ':') ∧
      b64Decode ("AAA=" : String).toList = some [0, 0] ∧
      hexDecodeBytes (⟨List.replicate 48 '0'⟩ : String).toList = some (List.replicate 24 0) ∧
      hexDecodeBytes (⟨List.replicate 64 '0'⟩ : String).toList = some (List.replicate 32 0) ∧
      crypto_aead_xchacha20poly1305_ietf_decrypt [0, 0] (List.replicate 24 0)
        (List.replicate 32 0) = none ∧
      decrypt ⟨List.replicate 64 '0'⟩
        ("001" ++ ":" ++ ⟨List.replicate 48 '0'⟩ ++ ":" ++ "AAA=") = .ok none) ∧
    (([48, 48, 49] : List Nat).length = 3 ∧
      strLt (arrayBufferToString [48, 48, 49]) Defaults.Version = false ∧
      (List.replicate 24 0).length = 24 ∧
      crypto_aead_xchacha20poly1305_ietf_decrypt [0] (List.replicate 24 0)
        (List.replicate 32 0) = none ∧
      decryptBlob ⟨List.replicate 64 '0'⟩
        ([48, 48, 49] ++ List.replicate 24 0 ++ [0]) = .ok none) :=
  ⟨⟨by decide, by decide, by decide, by decide, by decide, by decide, by decide, by decide,
    C3_auth_failure_null.1 ⟨List.replicate 64 '0'⟩ "001" ⟨List.replicate 48 '0'⟩ "AAA="
      [0, 0] (List.replicate 24 0) (List.replicate 32 0)
      (by decide) (by decide) (by decide) (by decide) (by decide) (by decide) (by decide)
      (by decide)⟩,
   ⟨by decide, by decide, by decide, by decide,
    C3_auth_failure_null.2 ⟨List.replicate 64 '0'⟩ [48, 48, 49] (List.replicate 24 0)
      [0] (List.replicate 32 0) (by decide) (by decide) (by decide) (by decide) (by decide)⟩⟩

/-- C4: `decrypt` and `decryptBlob` throw a version error exactly when the
parsed version field is lexicographically less than the current version
"001"; a lexicographically greater (newer) version is not rejected by the
version check. -/
theorem C4_version_check :
    (∀ key env : String,
      (strLt ((jsSplit env 3).headD "") Defaults.Version = true →
        decrypt key env = .error (.invalidVersion ((jsSplit env 3).headD ""))) ∧
      (strLt ((jsSplit env 3).headD "") Defaults.Version = false →
        ∀ v, decrypt key env ≠ .error (.invalidVersion v))) ∧
    (∀ (key : String) (msg : List Nat),
      (strLt (arrayBufferToString (msg.take Defaults.Version.length))
          Defaults.Version = true →
        decryptBlob key msg = .error (.invalidVersion
          (arrayBufferToString (msg.take Defaults.Version.length)))) ∧
      (strLt (arrayBufferToString (msg.take Defaults.Version.length))
          Defaults.Version = false →
        ∀ v, decryptBlob key msg ≠ .error (.invalidVersion v))) := by
  constructor
  · intro key env
    constructor
    · intro hlt
      unfold decrypt
      rw [if_pos hlt]
    · intro hlt v
      unfold decrypt
      rw [if_neg (by rw [hlt]; decide)]
      rcases xChaChaDecrypt_cases key (jsSplit env 3)[2]? (jsSplit env 3)[1]? with h | ⟨r, h⟩ <;>
        rw [h] <;> simp
  · intro key msg
    constructor
    · intro hlt
      unfold decryptBlob
      rw [if_pos hlt]
    · intro hlt v
      unfold decryptBlob
      rw [if_neg (by rw [hlt]; decide)]
      rcases xChaChaDecryptBlob_cases key
          (msg.drop (Defaults.Version.length + Defaults.EncryptionNonceLength))
          ((msg.drop Defaults.Version.length).take Defaults.EncryptionNonceLength)
        with h | ⟨r, h⟩ <;> rw [h] <;> simp

/-- Witness for C4: version "000" is rejected with a version error, "001"
passes the version check, "002" (newer) is not rejected; a blob envelope
whose version bytes read "000" is rejected. -/
theorem C4_version_check_witness :
    (strLt ((jsSplit "000:aa:bb" 3).headD "") Defaults.Version = true ∧
      decrypt ⟨List.replicate 64 '0'⟩ "000:aa:bb" =
        .error (.invalidVersion ((jsSplit "000:aa:bb" 3).headD ""))) ∧
    (strLt ((jsSplit "001:aa:bb" 3).headD "") Defaults.Version = false ∧
      decrypt ⟨List.replicate 64 '0'⟩ "001:aa:bb" ≠ .error (.invalidVersion "001")) ∧
    (strLt ((jsSplit "002:aa:bb" 3).headD "") Defaults.Version = false ∧
      decrypt ⟨List.replicate 64 '0'⟩ "002:aa:bb" ≠ .error (.invalidVersion "002")) ∧
    (strLt (arrayBufferToString (([48, 48, 48] ++ List.replicate 24 0 ++ [0]).take
        Defaults.Version.length)) Defaults.Version = true ∧
      decryptBlob ⟨List.replicate 64 '0'⟩ ([48, 48, 48] ++ List.replicate 24 0 ++ [0]) =
        .error (.invalidVersion (arrayBufferToString
          (([48, 48, 48] ++ List.replicate 24 0 ++ [0]).take Defaults.Version.length)))) :=
  ⟨⟨by decide, (C4_version_check.1 ⟨List.replicate 64 '0'⟩ "000:aa:bb").1 (by decide)⟩,
   ⟨by decide, (C4_version_check.1 ⟨List.replicate 64 '0'⟩ "001:aa:bb").2 (by decide) "001"⟩,
   ⟨by decide, (C4_version_check.1 ⟨List.replicate 64 '0'⟩ "002:aa:bb").2 (by decide) "002"⟩,
   ⟨by decide, (C4_version_check.2 ⟨List.replicate 64 '0'⟩
      ([48, 48, 48] ++ List.replicate 24 0 ++ [0])).1 (by decide)⟩⟩

/-- C5 counterexample: an input that splits into 4 colon-separated fields —
not exactly 3 — on which `decrypt` throws nothing at all: it decrypts the
first three fields successfully and silently ignores the fourth. -/
theorem C5_counterexample :
    (splitOnChar ':' (("001" ++ ":" ++ ⟨List.replicate 48 '0'⟩ ++ ":" ++
        arrayBufferToBase64 (crypto_aead_xchacha20poly1305_ietf_encrypt
          (stringToArrayBuffer "hi") (List.replicate 24 0) (List.replicate 32 0)) ++
        ":junk" : String)).toList).length = 4 ∧
    decrypt ⟨List.replicate 64 '0'⟩
      ("001" ++ ":" ++ ⟨List.replicate 48 '0'⟩ ++ ":" ++
        arrayBufferToBase64 (crypto_aead_xchacha20poly1305_ietf_encrypt
          (stringToArrayBuffer "hi") (List.replicate 24 0) (List.replicate 32 0)) ++
        ":junk") = .ok (some "hi") := by
  constructor
  · decide
  · rfl

/-- C5 amended: `decrypt` performs no field-count validation.  With more
than 3 colon-separated fields the extra fields are silently discarded — the
result is the same as on the 3-field prefix, with no error; with fewer than
3 fields (once the version check passes) the missing fields are `undefined`
and their decoding fails with a decoding error, not a field-count check. -/
theorem C5_amended :
    (∀ (key : String) (a b c extra : List Char),
      (∀ x ∈ a, x ≠ ':') → (∀ x ∈ b, x ≠ ':') → (∀ x ∈ c, x ≠ ':') →
      decrypt key ⟨a ++ ':' :: (b ++ ':' :: (c ++ ':' :: extra))⟩ =
        decrypt key ⟨a ++ ':' :: (b ++ ':' :: c)⟩) ∧
    (∀ key env : String, (splitOnChar ':' env.toList).length < 3 →
      strLt ((jsSplit env 3).headD "") Defaults.Version = false →
      decrypt key env = .error .decodeError) := by
  constructor
  · intro key a b c extra ha hb hc
    have hsplitL : jsSplit ⟨a ++ ':' :: (b ++ ':' :: (c ++ ':' :: extra))⟩ 3 =
        [⟨a⟩, ⟨b⟩, ⟨c⟩] := by
      unfold jsSplit
      rw [show (⟨a ++ ':' :: (b ++ ':' :: (c ++ ':' :: extra))⟩ : String).toList =
          a ++ ':' :: (b ++ ':' :: (c ++ ':' :: extra)) from rfl]
      rw [splitOnChar_append _ _ _ ha, splitOnChar_append _ _ _ hb,
        splitOnChar_append _ _ _ hc]
      rfl
    have hsplitR : jsSplit ⟨a ++ ':' :: (b ++ ':' :: c)⟩ 3 = [⟨a⟩, ⟨b⟩, ⟨c⟩] := by
      unfold jsSplit
      rw [show (⟨a ++ ':' :: (b ++ ':' :: c)⟩ : String).toList =
          a ++ ':' :: (b ++ ':' :: c) from rfl]
      rw [splitOnChar_append _ _ _ ha, splitOnChar_append _ _ _ hb,
        splitOnChar_sepfree _ _ hc]
      rfl
    unfold decrypt
    rw [hsplitL, hsplitR]
  · intro key env hlen hver
    unfold decrypt
    rw [if_neg (by rw [hver]; decide)]
    have h2 : (jsSplit env 3)[2]? = none := by
      apply List.getElem?_eq_none
      show (jsSplit env 3).length ≤ 2
      unfold jsSplit
      rw [List.length_map, List.length_take]
      omega
    rw [h2]
    rfl

/-- Witness for C5 amended: a 4-field input equals its 3-field prefix under
`decrypt`, and a 2-field input with an accepted version fails with a
decoding error. -/
theorem C5_amended_witness :
    ((∀ x ∈ ['0', '0', '1'], x ≠ ':') ∧ (∀ x ∈ ['a'], x ≠ ':') ∧ (∀ x ∈ ['b'], x ≠ ':') ∧
      decrypt ⟨List.replicate 64 '0'⟩
          ⟨['0', '0', '1'] ++ ':' :: (['a'] ++ ':' :: (['b'] ++ ':' :: ['j']))⟩ =
        decrypt ⟨List.replicate 64 '0'⟩ ⟨['0', '0', '1'] ++ ':' :: (['a'] ++ ':' :: ['b'])⟩) ∧
    ((splitOnChar ':' ("001:aa" : String).toList).length < 3 ∧
      strLt ((jsSplit "001:aa" 3).headD "") Defaults.Version = false ∧
      decrypt ⟨List.replicate 64 '0'⟩ "001:aa" = .error .decodeError) :=
  ⟨⟨by decide, by decide, by decide,
    C5_amended.1 ⟨List.replicate 64 '0'⟩ ['0', '0', '1'] ['a'] ['b'] ['j']
      (by decide) (by decide) (by decide)⟩,
   ⟨by decide, by decide,
    C5_amended.2 ⟨List.replicate 64 '0'⟩ "001:aa" (by decide) (by decide)⟩⟩

/-- C6: the envelope returned by `encrypt` has the exact shape
`version : nonce : ciphertext` in which the version field is the 3-character
string "001", the nonce field is exactly 48 hex characters, the ciphertext
field is base64, and the envelope contains exactly 2 colon separators. -/
theorem C6_envelope_shape (key plaintext : String) (keyBytes randomBytes : List Nat)
    (hkey : hexDecodeBytes key.toList = some keyBytes)
    (hrandLen : randomBytes.length = 24)
    (hrand : ∀ b ∈ randomBytes, b < 256) :
    ∃ nonceField ctField : String,
      encrypt key plaintext randomBytes =
        .ok (Defaults.Version ++ ":" ++ nonceField ++ ":" ++ ctField) ∧
      Defaults.Version = "001" ∧
      nonceField.length = 48 ∧
      (∀ c ∈ nonceField.toList, c ∈ hexDigits) ∧
      (∀ c ∈ ctField.toList, c ∈ b64Alphabet ∨ c = '=') ∧
      (Defaults.Version ++ ":" ++ nonceField ++ ":" ++ ctField).toList.count ':' = 2 := by
  refine ⟨generateRandomKey randomBytes,
    arrayBufferToBase64 (crypto_aead_xchacha20poly1305_ietf_encrypt
      (stringToArrayBuffer plaintext) randomBytes keyBytes),
    encrypt_eq key plaintext randomBytes keyBytes hkey hrandLen hrand, rfl, ?_, ?_, ?_, ?_⟩
  · rw [generateRandomKey_length, hrandLen]
  · exact fun c hc => hexEncodeBytes_mem randomBytes c hc
  · exact fun c hc => b64Encode_mem _ c hc
  · rw [envelope_toList]
    have h1 : (Defaults.Version : String).data.count ':' = 0 := by decide
    have h2 : (generateRandomKey randomBytes).data.count ':' = 0 :=
      count_colon_zero _ (fun x hx => hexDigits_ne_colon x (hexEncodeBytes_mem randomBytes x hx))
    have h3 : (arrayBufferToBase64 (crypto_aead_xchacha20poly1305_ietf_encrypt
        (stringToArrayBuffer plaintext) randomBytes keyBytes)).data.count ':' = 0 :=
      count_colon_zero _ (b64Encode_ne_colon _)
    simp [List.count_append, List.count_cons, h1, h2, h3]

/-- Witness for C6 at the all-zero key, plaintext "hello", all-zero nonce
draw. -/
theorem C6_envelope_shape_witness :
    hexDecodeBytes (⟨List.replicate 64 '0'⟩ : String).toList = some (List.replicate 32 0) ∧
    (List.replicate 24 0).length = 24 ∧
    (∀ b ∈ List.replicate 24 0, b < 256) ∧
    (∃ nonceField ctField : String,
      encrypt ⟨List.replicate 64 '0'⟩ "hello" (List.replicate 24 0) =
        .ok (Defaults.Version ++ ":" ++ nonceField ++ ":" ++ ctField) ∧
      Defaults.Version = "001" ∧
      nonceField.length = 48 ∧
      (∀ c ∈ nonceField.toList, c ∈ hexDigits) ∧
      (∀ c ∈ ctField.toList, c ∈ b64Alphabet ∨ c = '=') ∧
      (Defaults.Version ++ ":" ++ nonceField ++ ":" ++ ctField).toList.count ':' = 2) :=
  ⟨by decide, by decide, by decide,
    C6_envelope_shape ⟨List.replicate 64 '0'⟩ "hello" (List.replicate 32 0)
      (List.replicate 24 0) (by decide) (by decide) (by decide)⟩

/-- C7 counterexample: `hash` does not validate its salt as hex — the salt
"zz" is not valid hex, yet `hash` succeeds rather than throwing (the salt is
passed through the UTF-8 conversion, not the hex decoder). -/
theorem C7_counterexample :
    hexDecodeBytes ("zz" : String).toList = none ∧
    (hash "k" "zz" none).isOk = true :=
  ⟨by decide, by decide⟩

/-- C7 amended: only `hashPassword` hex-decodes its salt and throws an error
when the salt is not valid hex; `hash` UTF-8-encodes the salt as given and
never fails, whatever the salt. -/
theorem C7_amended :
    (∀ (password salt : String) (iterations bytes length : Option Nat),
      hexDecodeBytes salt.toList = none →
      hashPassword password salt iterations bytes length = .error .decodeError) ∧
    (∀ (key salt : String) (length : Option Nat), ∃ out, hash key salt length = .ok out) := by
  constructor
  · intro p s i b l hs
    unfold hashPassword
    rw [show hexStringToArrayBuffer (some s) = .error .decodeError from by
      simp only [hexStringToArrayBuffer, hs]]
    rfl
  · intro k s l
    exact ⟨_, rfl⟩

/-- Witness for C7 amended: `hashPassword` fails on salt "zz", `hash`
succeeds on it. -/
theorem C7_amended_witness :
    (hexDecodeBytes ("zz" : String).toList = none ∧
      hashPassword "p" "zz" none none none = .error .decodeError) ∧
    (∃ out, hash "k" "zz" none = .ok out) :=
  ⟨⟨by decide, C7_amended.1 "p" "zz" none none none (by decide)⟩,
   C7_amended.2 "k" "zz" none⟩

/-- C8: `hashPassword` is deterministic — equal password, salt, iterations,
bytes and length give equal output — and an omitted optional parameter is
the default `iterations = 5`, `bytes = 67108864`, `length = 32`, so two
calls with only password and salt also agree. -/
theorem C8_hashPassword_deterministic :
    (∀ (p s : String) (i b l : Option Nat) (p2 s2 : String) (i2 b2 l2 : Option Nat),
      p = p2 → s = s2 → i = i2 → b = b2 → l = l2 →
      hashPassword p s i b l = hashPassword p2 s2 i2 b2 l2) ∧
    (∀ p s : String, hashPassword p s none none none =
      hashPassword p s (some 5) (some 67108864) (some 32)) := by
  constructor
  · intro p s i b l p2 s2 i2 b2 l2 hp hs hi hb hl
    rw [hp, hs, hi, hb, hl]
  · intro p s
    rfl

/-- Witness for C8 at password "p", salt "00ff". -/
theorem C8_hashPassword_deterministic_witness :
    hashPassword "p" "00ff" (some 3) (some 1024) (some 16) =
      hashPassword "p" "00ff" (some 3) (some 1024) (some 16) ∧
    hashPassword "p" "00ff" none none none =
      hashPassword "p" "00ff" (some 5) (some 67108864) (some 32) :=
  ⟨C8_hashPassword_deterministic.1 "p" "00ff" (some 3) (some 1024) (some 16)
      "p" "00ff" (some 3) (some 1024) (some 16) rfl rfl rfl rfl rfl,
    C8_hashPassword_deterministic.2 "p" "00ff"⟩

/-- C9: the "Nonce must be 48 bytes" branch in `encrypt` is unreachable —
the nonce is 24 random bytes hex-encoded to exactly 48 characters before
the check runs, so `encrypt` never throws the nonce-length error. -/
theorem C9_nonce_check_unreachable (key plaintext : String) (randomBytes : List Nat)
    (hrandLen : randomBytes.length = 24) :
    (generateRandomKey randomBytes).length = 48 ∧
    ∀ m, encrypt key plaintext randomBytes ≠ .error (.nonceLength m) := by
  have h48 : (generateRandomKey randomBytes).length = 48 := by
    rw [generateRandomKey_length, hrandLen]
  refine ⟨h48, ?_⟩
  intro m
  simp only [encrypt]
  rcases xChaChaEncrypt_cases key plaintext (generateRandomKey randomBytes) h48 with h | ⟨r, h⟩
  · rw [h, except_bind_error]
    simp
  · rw [h, except_bind_ok]
    simp [except_pure]

/-- Witness for C9 at the all-zero key, plaintext "hello", all-zero nonce
draw, against the message "Nonce must be 48 bytes". -/
theorem C9_nonce_check_unreachable_witness :
    (List.replicate 24 0).length = 24 ∧
    (generateRandomKey (List.replicate 24 0)).length = 48 ∧
    encrypt ⟨List.replicate 64 '0'⟩ "hello" (List.replicate 24 0) ≠
      .error (.nonceLength "Nonce must be 48 bytes") :=
  ⟨by decide,
    (C9_nonce_check_unreachable ⟨List.replicate 64 '0'⟩ "hello" (List.replicate 24 0)
      (by decide)).1,
    (C9_nonce_check_unreachable ⟨List.replicate 64 '0'⟩ "hello" (List.replicate 24 0)
      (by decide)).2 "Nonce must be 48 bytes"⟩

/-- C10: the decryption paths have no nonce-length self-check — whatever the
nonce field parsed from a text envelope (even when it is not 48 hex
characters) or the nonce region of a blob envelope (even when it is shorter
than 24 bytes), neither `decrypt` nor `decryptBlob` throws a nonce-length
error. -/
theorem C10_no_nonce_check_on_decrypt :
    (∀ key env : String,
      ((jsSplit env 3)[1]?.getD "").length ≠ 48 →
      ∀ m, decrypt key env ≠ .error (.nonceLength m)) ∧
    (∀ (key : String) (msg : List Nat),
      ((msg.drop Defaults.Version.length).take Defaults.EncryptionNonceLength).length < 24 →
      ∀ m, decryptBlob key msg ≠ .error (.nonceLength m)) := by
  constructor
  · intro key env _ m
    rcases decrypt_result_cases key env with h | h | ⟨r, h⟩ <;> rw [h] <;> simp
  · intro key msg _ m
    rcases decryptBlob_result_cases key msg with h | h | ⟨r, h⟩ <;> rw [h] <;> simp

/-- Witness for C10: a text envelope with a 2-character nonce field and a
7-byte blob envelope, neither of which produces a nonce-length error. -/
theorem C10_no_nonce_check_on_decrypt_witness :
    (((jsSplit "001:ab:cd" 3)[1]?.getD "").length ≠ 48 ∧
      decrypt ⟨List.replicate 64 '0'⟩ "001:ab:cd" ≠
        .error (.nonceLength "Nonce must be 48 bytes")) ∧
    ((([48, 48, 49, 1, 2, 3, 4].drop Defaults.Version.length).take
        Defaults.EncryptionNonceLength).length < 24 ∧
      decryptBlob ⟨List.replicate 64 '0'⟩ [48, 48, 49, 1, 2, 3, 4] ≠
        .error (.nonceLength "nonceBuffer must be 24 bytes")) :=
  ⟨⟨by decide,
    C10_no_nonce_check_on_decrypt.1 ⟨List.replicate 64 '0'⟩ "001:ab:cd" (by decide)
      "Nonce must be 48 bytes"⟩,
   ⟨by decide,
    C10_no_nonce_check_on_decrypt.2 ⟨List.replicate 64 '0'⟩ [48, 48, 49, 1, 2, 3, 4]
      (by decide) "nonceBuffer must be 24 bytes"⟩⟩

end KissCrypto
